import Mathlib

/-!
Verification of the getbible/loader widget.

This file embeds the JavaScript sources of the getbible loader widget
(`src/js/core/Loader.js`, `src/js/core/Api.js`, `src/js/core/Action.js`,
the `Memory`, `Reference` and `Format` classes, and the dist variant of
`Action` shipped in the README) as Lean definitions, and proves or refutes
the stated properties of the specification against them.

JavaScript strings are modelled as Lean `String`s, with the JS string
operations (`split`, `trim`, `toLowerCase`, `join`, regex digit test)
re-implemented over the underlying character list so that they compute by
kernel reduction.  JS numbers appearing as parsed integer flags are
modelled as `Option Int`, `none` standing for `NaN`.
-/

namespace GetBible

/-- Splits a character list at every occurrence of `sep`, JS
`String.prototype.split` semantics: `n` separators yield `n+1` (possibly
empty) fields, and the empty input yields one empty field. -/
def splitOnChar (sep : Char) : List Char → List (List Char)
  | [] => [[]]
  | c :: rest =>
    if c = sep then [] :: splitOnChar sep rest
    else
      match splitOnChar sep rest with
      | [] => [[c]]
      | t :: ts => (c :: t) :: ts

/-- JS `String.prototype.split(sep)` for a one-character separator. -/
def jsSplit (sep : Char) (s : String) : List String :=
  (splitOnChar sep s.data).map List.asString

/-- JS `String.prototype.trim()`: strips leading and trailing whitespace. -/
def jsTrim (s : String) : String :=
  (((s.data.dropWhile Char.isWhitespace).reverse.dropWhile Char.isWhitespace).reverse).asString

/-- JS `String.prototype.toLowerCase()`. -/
def jsToLowerCase (s : String) : String :=
  (s.data.map Char.toLower).asString

/-- JS `String.prototype.length` (character count at this abstraction). -/
def jsLength (s : String) : Nat :=
  s.data.length

/-- JS regex test `/\d/.test(s)`: does the string contain a decimal digit? -/
def containsDigit (s : String) : Bool :=
  s.data.any Char.isDigit

/-- JS `Array.prototype.join(sep)` on an array of strings. -/
def joinSep (sep : String) : List String → String
  | [] => ""
  | [x] => x
  | x :: y :: xs => x ++ sep ++ joinSep sep (y :: xs)

/-- Value of a list of decimal digit characters, most significant first. -/
def digitsToNat (cs : List Char) : Nat :=
  cs.foldl (fun a c => a * 10 + (c.toNat - 48)) 0

/-- JS `parseInt(s, 10)`: skip leading whitespace, optional sign, then read
leading decimal digits; `none` models the `NaN` result. -/
def parseIntJS (s : String) : Option Int :=
  match s.data.dropWhile Char.isWhitespace with
  | '-' :: r =>
    if (r.takeWhile Char.isDigit).isEmpty then none
    else some (-(digitsToNat (r.takeWhile Char.isDigit) : Int))
  | '+' :: r =>
    if (r.takeWhile Char.isDigit).isEmpty then none
    else some ((digitsToNat (r.takeWhile Char.isDigit) : Int))
  | r =>
    if (r.takeWhile Char.isDigit).isEmpty then none
    else some ((digitsToNat (r.takeWhile Char.isDigit) : Int))

/-- JS truthiness of a number-or-NaN: `0` and `NaN` are falsy. -/
def jsNumTruthy : Option Int → Bool
  | some k => k != 0
  | none => false

/-- JS `attr || default` for an optional string attribute: `undefined` and
the empty string are falsy. -/
def jsOrDefault (attr : Option String) (d : String) : String :=
  match attr with
  | some s => if s = "" then d else s
  | none => d

/-- JS `attr ? parseInt(attr, 10) : d` for an optional string attribute. -/
def jsFlagAttr (attr : Option String) (d : Int) : Option Int :=
  match attr with
  | some s => if s = "" then some d else parseIntJS s
  | none => some d

/-- State of the single pass of `Reference.verseReference`
(`src/unnamed/part_013`, `README` lines 426-453): `ranges` models the JS
object keyed by range start (kept sorted by key, as numeric JS object keys
iterate in ascending order); an entry `(s, some e)` stands for the stored
string `"s-e"`, an entry `(s, none)` for `"s"`, rendered by
`renderRange` at join time. -/
structure RangeState where
  ranges : List (Nat × Option Nat)
  rangeStart : Option Nat
  rangeEnd : Option Nat
  previousVerse : Option Nat

/-- Write `ranges[k] = v` in the JS object modelled as an
ascending-by-key association list: overwrite an existing key, otherwise
insert at the sorted position. -/
def insertRanges : List (Nat × Option Nat) → Nat → Option Nat → List (Nat × Option Nat)
  | [], k, v => [(k, v)]
  | (k', v') :: rest, k, v =>
    if k < k' then (k, v) :: (k', v') :: rest
    else if k = k' then (k, v) :: rest
    else (k', v') :: insertRanges rest k v

/-- One iteration of the `verseNumbers.forEach(verse => ...)` loop body of
`Reference.verseReference`.  (JS `null + 1` evaluates to `1`, hence the
`getD 0` on `previousVerse`; that branch is only reachable with
`rangeStart ≠ null`, where `previousVerse` is also set.) -/
def rangeStep (st : RangeState) (verse : Nat) : RangeState :=
  match st.rangeStart with
  | none => { st with rangeStart := some verse, previousVerse := some verse }
  | some rs =>
    if verse = st.previousVerse.getD 0 + 1 then
      { st with rangeEnd := some verse, previousVerse := some verse }
    else
      { ranges := insertRanges st.ranges rs st.rangeEnd,
        rangeStart := some verse, rangeEnd := none, previousVerse := some verse }

/-- The trailing flush after the loop: `if (rangeStart !== null) ranges[rangeStart] = ...`. -/
def flushRanges (st : RangeState) : List (Nat × Option Nat) :=
  match st.rangeStart with
  | none => st.ranges
  | some rs => insertRanges st.ranges rs st.rangeEnd

/-- The string stored for one entry of the JS `ranges` object:
`(rangeEnd !== null) ? rangeStart-rangeEnd : rangeStart`. -/
def renderRange : Nat × Option Nat → String
  | (s, none) => Nat.repr s
  | (s, some e) => Nat.repr s ++ "-" ++ Nat.repr e

/-- `Reference.verseReference` (`README` lines 426-453; the body of
`Reference.reference` in `src/unnamed/part_013` lines 182-210 is the same
computation without the chapter-name prefix): sort the verse numbers
ascending (JS `.sort((a, b) => a - b)`), run the range-building pass, and
join the collected range strings with `","`. -/
def verseReference (verses : List Nat) : String :=
  let verseNumbers := List.insertionSort (· ≤ ·) verses
  let st := verseNumbers.foldl rangeStep ⟨[], none, none, none⟩
  joinSep "," ((flushRanges st).map renderRange)

/-- `Reference.reference` (`src/unnamed/part_013`): chapter name, colon,
compressed verse ranges. -/
def referenceString (name : String) (verses : List Nat) : String :=
  name ++ ":" ++ verseReference verses

/-- Spec side of the round-trip claim: the set denoted by one
comma-separated field of the range string, `"N"` denoting `{N}` and
`"a-b"` denoting the closed integer interval. -/
def parseToken (cs : List Char) : Finset Nat :=
  match splitOnChar '-' cs with
  | [a] => {digitsToNat a}
  | [a, b] => Finset.Icc (digitsToNat a) (digitsToNat b)
  | _ => ∅

/-- Spec side of the round-trip claim: parse a comma/hyphen range string
back into the set of verse numbers it denotes. -/
def parseRangeSet (s : String) : Finset Nat :=
  if s = "" then ∅
  else ((splitOnChar ',' s.data).map parseToken).foldr (· ∪ ·) ∅

/-- Set of verse numbers covered by the modelled `ranges` object. -/
def coveredSet (m : List (Nat × Option Nat)) : Finset Nat :=
  m.foldr (fun p acc => Finset.Icc p.1 (p.2.getD p.1) ∪ acc) ∅

/-- Structural model of the decimal digit list of `n` (proof-side mirror
of `Nat.toDigitsCore`). -/
def natDigits (n : Nat) : List Char :=
  if h : n < 10 then [Nat.digitChar n]
  else natDigits (n / 10) ++ [Nat.digitChar (n % 10)]
decreasing_by exact Nat.div_lt_self (by omega) (by omega)

/-- Model of a trigger element's `dataset` (the `data-*` attributes the
loader reads); `none` models an absent attribute. -/
structure Dataset where
  format : Option String := none
  translation : Option String := none
  showBookName : Option String := none
  showReference : Option String := none
  showLocalReference : Option String := none
  showTranslation : Option String := none
  showAbbreviation : Option String := none
  showLanguage : Option String := none
  showLanguageCode : Option String := none
  showBibleLink : Option String := none
  bibleUrl : Option String := none

/-- Model of a trigger DOM element: its text content and data attributes. -/
structure HTMLElement where
  innerHTML : String := ""
  dataset : Dataset := {}

/-- The configuration object built by `Action`'s constructor
(`src/unnamed/part_012`): format, translation list and display toggles.
Toggle values are JS numbers from `parseInt`, modelled as `Option Int`
(`none` = `NaN`). -/
structure Action where
  format : String
  translations : List String
  showBookName : Option Int
  showReference : Option Int
  showLocalReference : Option Int
  showTranslation : Option Int
  showAbbreviation : Option Int
  showLanguage : Option Int
  showLanguageCode : Option Int

/-- `Action` constructor (`src/unnamed/part_012` lines 21-41): read each
attribute with its default, then force `showReference` to `0` whenever
`showLocalReference` is truthy. -/
def Action.ofElement (element : HTMLElement) : Action :=
  let showLocalReference := jsFlagAttr element.dataset.showLocalReference 0
  { format := jsToLowerCase (jsOrDefault element.dataset.format "inline")
    translations :=
      (jsSplit ';' (jsToLowerCase (jsOrDefault element.dataset.translation "kjv"))).map jsTrim
    showBookName := jsFlagAttr element.dataset.showBookName 0
    showReference :=
      if jsNumTruthy showLocalReference then some 0
      else jsFlagAttr element.dataset.showReference 1
    showLocalReference := showLocalReference
    showTranslation := jsFlagAttr element.dataset.showTranslation 0
    showAbbreviation := jsFlagAttr element.dataset.showAbbreviation 0
    showLanguage := jsFlagAttr element.dataset.showLanguage 0
    showLanguageCode := jsFlagAttr element.dataset.showLanguageCode 0 }

namespace Dist

/-- The dist variant of `Action` shipped in `src/README.md` (lines
490-528), which additionally reads `data-show-bible-link` and
`data-bible-url`. -/
structure Action where
  format : String
  translations : List String
  showBookName : Option Int
  showReference : Option Int
  showLocalReference : Option Int
  showTranslation : Option Int
  showAbbreviation : Option Int
  showLanguage : Option Int
  showLanguageCode : Option Int
  showBibleLink : Option Int
  bibleUrl : String

/-- Constructor of the dist `Action` (`src/README.md` lines 499-528): same
reads as `Action.ofElement` plus the two link attributes, then the two
forcing rules: truthy `showLocalReference` zeroes `showReference`, and a
`bibleUrl` other than the default turns `showBibleLink` on. -/
def Action.ofElement (element : HTMLElement) : Action :=
  let showLocalReference := jsFlagAttr element.dataset.showLocalReference 0
  let bibleUrl := jsOrDefault element.dataset.bibleUrl "https://getBible.net/"
  { format := jsToLowerCase (jsOrDefault element.dataset.format "inline")
    translations :=
      (jsSplit ';' (jsToLowerCase (jsOrDefault element.dataset.translation "kjv"))).map jsTrim
    showBookName := jsFlagAttr element.dataset.showBookName 0
    showReference :=
      if jsNumTruthy showLocalReference then some 0
      else jsFlagAttr element.dataset.showReference 1
    showLocalReference := showLocalReference
    showTranslation := jsFlagAttr element.dataset.showTranslation 0
    showAbbreviation := jsFlagAttr element.dataset.showAbbreviation 0
    showLanguage := jsFlagAttr element.dataset.showLanguage 0
    showLanguageCode := jsFlagAttr element.dataset.showLanguageCode 0
    showBibleLink :=
      if bibleUrl ≠ "https://getBible.net/" then some 1
      else jsFlagAttr element.dataset.showBibleLink 0
    bibleUrl := bibleUrl }

end Dist

/-- `Memory.ONE_MONTH_IN_MILLISECONDS` (`Loader.js` lines 188-190). -/
def ONE_MONTH_IN_MILLISECONDS : Int := 30 * 24 * 60 * 60 * 1000

/-- A stored cache entry: `{data, timestamp}` as written by `Memory.set`. -/
structure CacheItem (α : Type) where
  data : α
  timestamp : Int

/-- The `localStorage` key/value store, keyed by string. -/
abbrev Store (α : Type) : Type := String → Option (CacheItem α)

/-- `Memory.#key`: `getBible-${translation}-${reference}`. -/
def Memory.key (reference translation : String) : String :=
  "getBible-" ++ translation ++ "-" ++ reference

/-- `Memory.#get` (`Loader.js` lines 234-249) evaluated at clock time
`now`: look the key up and return the data only when
`timestamp > now - ONE_MONTH_IN_MILLISECONDS`; the store after the read is
returned alongside (the source performs no `removeItem`/`setItem`, so it
is the input store in both branches). -/
def Memory.get {α : Type} (store : Store α) (now : Int) (reference translation : String) :
    Option α × Store α :=
  match store (Memory.key reference translation) with
  | some item =>
    (if item.timestamp > now - ONE_MONTH_IN_MILLISECONDS then some item.data else none, store)
  | none => (none, store)

/-- `Memory.set` evaluated at clock time `now`: store `{data, timestamp: now}`. -/
def Memory.set {α : Type} (store : Store α) (now : Int) (reference translation : String)
    (data : α) : Store α :=
  fun k => if k = Memory.key reference translation then some ⟨data, now⟩ else store k

/-- The three formatting strategies of `src/js/formats`. -/
inductive FormatStrategy where
  | BlockFormat
  | InlineFormat
  | PlainFormat
deriving DecidableEq

/-- The own properties of the `formatTypes` object literal of `Format`'s
constructor (`src/js/formats/Format.js` lines 50-77). -/
def formatTypes (format : String) : Option FormatStrategy :=
  if format = "modal" then some .BlockFormat
  else if format = "inline" then some .InlineFormat
  else if format = "tooltip" then some .PlainFormat
  else none

/-- String keys at which a JS property read on a plain object literal does
not return `undefined` but hits an inherited, truthy member of
`Object.prototype` (the string-keyed `Object.prototype` properties:
`constructor` is `Object`, `__proto__` resolves to `Object.prototype`
itself, the rest are built-in methods — all truthy values). -/
def objectPrototypeMembers : List String :=
  ["constructor", "hasOwnProperty", "isPrototypeOf", "propertyIsEnumerable",
   "toLocaleString", "toString", "valueOf", "__proto__",
   "__defineGetter__", "__defineSetter__", "__lookupGetter__", "__lookupSetter__"]

/-- What `const FormatType = formatTypes[formatType] || InlineFormat`
binds under full JS object-lookup semantics: an own-property hit yields
that strategy class; a key naming an inherited `Object.prototype` member
yields that truthy inherited value, so the `|| InlineFormat` fallback is
not taken and the bound value is not a format strategy at all (the
subsequent `new FormatType(action)` then builds a foreign object or
throws); only a key found nowhere on the chain gives `undefined` and
falls back to `InlineFormat`. -/
inductive FormatSelection where
  | strategy (s : FormatStrategy)
  | inheritedObjectMember (name : String)
deriving DecidableEq

/-- Strategy selection of `Format`'s constructor:
`formatTypes[formatType] || InlineFormat`, including the prototype-chain
part of the JS lookup. -/
def Format.select (format : String) : FormatSelection :=
  match formatTypes format with
  | some s => .strategy s
  | none =>
    if format ∈ objectPrototypeMembers then .inheritedObjectMember format
    else .strategy .InlineFormat

/-- A decoded HTTP response as `Api.get` sees it: `ok`/`status`/
`statusText` of the `fetch` response plus its decoded JSON body. -/
structure Response (α : Type) where
  ok : Bool
  status : Nat
  statusText : String
  json : α

/-- `Api.get` (`src/js/core/Api.js` lines 24-44) with the network as an
explicit function and `localStorage` as explicit state: returns the
result, the store afterwards, and the number of HTTP fetches performed
(`0` or `1`). On a cache hit the cached value is returned directly; on a
miss the URL is fetched, a non-ok response raises, and an ok response is
written through `Memory.set` and returned. -/
def Api.get {α : Type} (fetch : String → String → Response α) (store : Store α) (now : Int)
    (reference translation : String) : Except String α × Store α × Nat :=
  match (Memory.get store now reference translation).1 with
  | some localStorageData => (.ok localStorageData, store, 0)
  | none =>
    let response := fetch reference translation
    if response.ok then
      (.ok response.json, Memory.set store now reference translation response.json, 1)
    else
      (.error (Nat.repr response.status ++ " - " ++ response.statusText), store, 1)

/-- The per-token validity test of `Loader.#validateReferences`
(`src/js/core/Loader.js` lines 128-139): at most 30 characters long and
containing at least one decimal digit. -/
def isValidReference (reference : String) : Bool :=
  decide (jsLength reference ≤ 30) && containsDigit reference

/-- `Loader.#validateReferences`: keep the valid tokens (invalid ones are
logged and dropped). -/
def validateReferences (references : List String) : List String :=
  references.filter isValidReference

/-- `Loader.#processReferences` (`src/js/core/Loader.js` lines 147-160)
with the api call as an explicit function: `get reference translation`
returns `.error` when the awaited call rejects, `.ok none` when it
resolves falsy, `.ok (some s)` when scripture `s` arrives.  The nested
loops accumulate, in order, the scriptures handed to `#load` and the
pairs whose failure was caught and logged. -/
def processReferences {α : Type} (get : String → String → Except String (Option α))
    (translations : List String) (validReferences : List String) :
    List α × List (String × String) :=
  validReferences.foldl (fun acc reference =>
    translations.foldl (fun acc' translation =>
      match get reference translation with
      | .ok (some scripture) => (acc'.1 ++ [scripture], acc'.2)
      | .ok none => acc'
      | .error _ => (acc'.1, acc'.2 ++ [(reference, translation)])) acc)
    ([], [])

/-- All `(reference, translation)` pairs in the order the nested loops of
`Loader.#processReferences` visit them. -/
def referencePairs (translations : List String) (validReferences : List String) :
    List (String × String) :=
  validReferences.flatMap (fun r => translations.map (fun t => (r, t)))

/-- The scripture a single `(reference, translation)` pair contributes to
the element, if any: its api result when that call resolves truthy. -/
def successOf {α : Type} (get : String → String → Except String (Option α))
    (rt : String × String) : Option α :=
  match get rt.1 rt.2 with
  | .ok (some scripture) => some scripture
  | _ => none

/-- Whether a single `(reference, translation)` pair's api call rejects
(and is hence caught and logged by `#processReferences`). -/
def failsOf {α : Type} (get : String → String → Except String (Option α))
    (rt : String × String) : Bool :=
  match get rt.1 rt.2 with
  | .error _ => true
  | _ => false

/-- Observable outcome of one `Loader.load` run: whether `#init` ran
(components constructed), which `(reference, translation)` pairs were
requested from the api, which scriptures were loaded into the element,
and which pairs failed. -/
structure LoadResult (α : Type) where
  initialized : Bool
  requests : List (String × String)
  loaded : List α
  errors : List (String × String)

/-- `Loader.load` (`src/js/core/Loader.js` lines 103-119): split the
element text on `";"`, trim, validate; when no valid reference remains,
return after logging, with no initialization, no requests and no DOM
writes; otherwise build the `Action` and process all pairs. -/
def Loader.load {α : Type} (get : String → String → Except String (Option α))
    (element : HTMLElement) : LoadResult α :=
  let references := (jsSplit ';' element.innerHTML).map jsTrim
  if references.length = 0 then ⟨false, [], [], []⟩
  else
    let validReferences := validateReferences references
    if validReferences.length = 0 then ⟨false, [], [], []⟩
    else
      let action := Action.ofElement element
      let result := processReferences get action.translations validReferences
      ⟨true, validReferences.flatMap (fun r => action.translations.map (fun t => (r, t))),
        result.1, result.2⟩

/-! ### Validation (claims C2, C8) -/

/-- The digit-only token `"16"` passes `Loader.#validateReferences`: it is
2 characters long and contains a digit, and the filter has no further
check, so — contrary to the specification — it is accepted, not
rejected. -/
theorem isValidReference_sixteen_accepted :
    isValidReference "16" = true ∧ validateReferences ["16"] = ["16"] := by
  decide

/-- C2 (amended): validation accepts a token exactly when it is at most 30
characters long and contains at least one decimal digit; in particular the
digit-only token `"16"` is accepted. -/
theorem validateReferences_characterization :
    (∀ references : List String, ∀ reference : String,
      reference ∈ validateReferences references ↔
        reference ∈ references ∧ jsLength reference ≤ 30 ∧ containsDigit reference = true) ∧
    validateReferences ["16"] = ["16"] := by
  refine ⟨fun references reference => ?_, by decide⟩
  simp [validateReferences, List.mem_filter, isValidReference, and_assoc]

/-! ### Action configuration (claims C3, C4, C5) -/

/-- C3: a trigger element with no data attributes yields the default
configuration: `format = "inline"`, `translations = ["kjv"]`,
`showReference = 1`, and every other display toggle `0`. -/
theorem Action_ofElement_defaults (html : String) :
    (Action.ofElement ⟨html, {}⟩).format = "inline" ∧
    (Action.ofElement ⟨html, {}⟩).translations = ["kjv"] ∧
    (Action.ofElement ⟨html, {}⟩).showReference = some 1 ∧
    (Action.ofElement ⟨html, {}⟩).showBookName = some 0 ∧
    (Action.ofElement ⟨html, {}⟩).showLocalReference = some 0 ∧
    (Action.ofElement ⟨html, {}⟩).showTranslation = some 0 ∧
    (Action.ofElement ⟨html, {}⟩).showAbbreviation = some 0 ∧
    (Action.ofElement ⟨html, {}⟩).showLanguage = some 0 ∧
    (Action.ofElement ⟨html, {}⟩).showLanguageCode = some 0 :=
  ⟨rfl, rfl, rfl, rfl, rfl, rfl, rfl, rfl, rfl⟩

/-- C4: whenever the element's data attributes enable local-reference
display (the parsed `showLocalReference` flag is truthy), the constructed
`Action` has `showReference = 0`, even if `data-show-reference` was
explicitly set. -/
theorem Action_localReference_forces_showReference_off (element : HTMLElement)
    (h : jsNumTruthy (Action.ofElement element).showLocalReference = true) :
    (Action.ofElement element).showReference = some 0 := by
  simp only [Action.ofElement] at h ⊢
  rw [if_pos h]

/-- Witness for C4: `data-show-local-reference="1"` forces
`showReference = 0` although `data-show-reference="1"` was given. -/
theorem Action_localReference_forces_showReference_off_witness :
    (Action.ofElement
      ⟨"", { showLocalReference := some "1", showReference := some "1" }⟩).showReference
      = some 0 :=
  Action_localReference_forces_showReference_off
    ⟨"", { showLocalReference := some "1", showReference := some "1" }⟩ (by decide)

/-- C5: in the dist `Action`, supplying any non-empty `data-bible-url`
other than the default `https://getBible.net/` forces the external-link
toggle `showBibleLink` to `1`, whatever `data-show-bible-link` says. -/
theorem Dist_Action_nondefault_url_forces_link (element : HTMLElement) (u : String)
    (h1 : element.dataset.bibleUrl = some u) (h2 : u ≠ "")
    (h3 : u ≠ "https://getBible.net/") :
    (Dist.Action.ofElement element).showBibleLink = some 1 := by
  simp [Dist.Action.ofElement, jsOrDefault, h1, h2, h3]

/-- Witness for C5: a custom link URL with `data-show-bible-link` absent
still turns the link toggle on. -/
theorem Dist_Action_nondefault_url_forces_link_witness :
    (Dist.Action.ofElement
      ⟨"", { bibleUrl := some "https://example.com/" }⟩).showBibleLink = some 1 :=
  Dist_Action_nondefault_url_forces_link
    ⟨"", { bibleUrl := some "https://example.com/" }⟩ "https://example.com/"
    rfl (by decide) (by decide)

/-! ### Cache TTL (claim C6) -/

/-- C6: a cache entry written 31 days before the read is a miss, one
written 29 days before is a hit; in general a stored entry is returned
exactly when its timestamp is younger than 30 days; and the read leaves
the store untouched (no eviction). -/
theorem Memory_get_ttl {α : Type} (store : Store α) (now : Int)
    (reference translation : String) (d : α) :
    (Memory.get (Memory.set store (now - 31 * 86400000) reference translation d)
        now reference translation).1 = none ∧
    (Memory.get (Memory.set store (now - 29 * 86400000) reference translation d)
        now reference translation).1 = some d ∧
    (∀ item : CacheItem α, store (Memory.key reference translation) = some item →
      ((Memory.get store now reference translation).1 = some item.data ↔
        now - item.timestamp < ONE_MONTH_IN_MILLISECONDS)) ∧
    (Memory.get store now reference translation).2 = store := by
  have hset : ∀ ts : Int,
      (Memory.get (Memory.set store ts reference translation d) now reference translation).1
        = if ts > now - ONE_MONTH_IN_MILLISECONDS then some d else none := by
    intro ts
    simp [Memory.get, Memory.set]
  refine ⟨?_, ?_, ?_, ?_⟩
  · rw [hset, if_neg]
    simp only [ONE_MONTH_IN_MILLISECONDS]
    omega
  · rw [hset, if_pos]
    simp only [ONE_MONTH_IN_MILLISECONDS]
    omega
  · intro item hitem
    simp only [Memory.get, hitem]
    by_cases hc : item.timestamp > now - ONE_MONTH_IN_MILLISECONDS
    · simp only [if_pos hc, true_iff, eq_self_iff_true]
      simp only [ONE_MONTH_IN_MILLISECONDS] at hc ⊢
      omega
    · simp only [if_neg hc]
      simp only [ONE_MONTH_IN_MILLISECONDS] at hc ⊢
      constructor
      · intro hsome; exact absurd hsome (by simp)
      · intro hfresh; omega
  · unfold Memory.get
    cases store (Memory.key reference translation) <;> rfl

/-- Witness for C6: the general freshness criterion evaluated on a
concrete store holding an entry of age 100 ms. -/
theorem Memory_get_ttl_witness :
    ((Memory.get
        (fun k => if k = Memory.key "r" "t" then some ⟨(5 : Nat), -100⟩ else none)
        0 "r" "t").1 = some 5 ↔ (0 : Int) - (-100) < ONE_MONTH_IN_MILLISECONDS) :=
  (Memory_get_ttl
      (fun k => if k = Memory.key "r" "t" then some ⟨(5 : Nat), -100⟩ else none)
      0 "r" "t" 5).2.2.1 ⟨5, -100⟩ (by simp)

/-! ### Sequential fetch loop (claim C7) -/

/-- Inner `for (const translation of ...)` loop of
`Loader.#processReferences`: it appends exactly the successes and logged
failures of its own pairs to the accumulator. -/
theorem foldl_translations {α : Type} (get : String → String → Except String (Option α))
    (reference : String) (translations : List String)
    (acc : List α × List (String × String)) :
    (translations.foldl (fun acc' translation =>
        match get reference translation with
        | .ok (some scripture) => (acc'.1 ++ [scripture], acc'.2)
        | .ok none => acc'
        | .error _ => (acc'.1, acc'.2 ++ [(reference, translation)])) acc)
      = (acc.1 ++ (translations.map (fun t => (reference, t))).filterMap (successOf get),
         acc.2 ++ (translations.map (fun t => (reference, t))).filter (failsOf get)) := by
  induction translations generalizing acc with
  | nil => simp
  | cons t ts ih =>
    simp only [List.foldl_cons, List.map_cons, List.filterMap_cons, List.filter_cons]
    rcases hg : get reference t with e | o
    · simp [ih, successOf, failsOf, hg]
    · cases o <;> simp [ih, successOf, failsOf, hg]

/-- Outer `for (const reference of validReferences)` loop of
`Loader.#processReferences`, generalized over the accumulator. -/
theorem foldl_references {α : Type} (get : String → String → Except String (Option α))
    (translations : List String) (validReferences : List String)
    (acc : List α × List (String × String)) :
    (validReferences.foldl (fun acc reference =>
        translations.foldl (fun acc' translation =>
          match get reference translation with
          | .ok (some scripture) => (acc'.1 ++ [scripture], acc'.2)
          | .ok none => acc'
          | .error _ => (acc'.1, acc'.2 ++ [(reference, translation)])) acc) acc)
      = (acc.1 ++ (referencePairs translations validReferences).filterMap (successOf get),
         acc.2 ++ (referencePairs translations validReferences).filter (failsOf get)) := by
  induction validReferences generalizing acc with
  | nil => simp [referencePairs]
  | cons r rs ih =>
    simp only [List.foldl_cons, referencePairs, List.flatMap_cons] at ih ⊢
    rw [foldl_translations, ih]
    simp [List.filterMap_append, List.filter_append, List.append_assoc]

/-- C7: the nested fetch loops deliver exactly the successful pairs'
scriptures, in visit order, and log exactly the failing pairs — a failure
on one `(reference, translation)` pair never suppresses the processing or
rendering of any other pair, whether it comes before or after it. -/
theorem processReferences_failure_isolation {α : Type}
    (get : String → String → Except String (Option α))
    (translations validReferences : List String) :
    processReferences get translations validReferences
      = ((referencePairs translations validReferences).filterMap (successOf get),
         (referencePairs translations validReferences).filter (failsOf get)) := by
  unfold processReferences
  rw [foldl_references]
  simp

/-! ### Abandoning an element with no valid reference (claim C8) -/

/-- C8: when every raw token split from the element text fails validation,
`Loader.load` returns after logging: the presenter components are not
initialized, no api request (network or cache) is issued, and nothing is
loaded into the element's DOM. -/
theorem Loader_load_all_invalid_abandons {α : Type}
    (get : String → String → Except String (Option α)) (element : HTMLElement)
    (h : ∀ r ∈ (jsSplit ';' element.innerHTML).map jsTrim, isValidReference r = false) :
    Loader.load get element = ⟨false, [], [], []⟩ := by
  have hnil : validateReferences ((jsSplit ';' element.innerHTML).map jsTrim) = [] := by
    rw [validateReferences, List.filter_eq_nil_iff]
    intro a ha
    simp [h a ha]
  unfold Loader.load
  by_cases hlen : ((jsSplit ';' element.innerHTML).map jsTrim).length = 0
  · simp [hlen]
  · simp [hlen, hnil]

/-- Witness for C8: an element whose only token is `"John"` (31+ chars not
needed — it has no digit) is abandoned untouched. -/
theorem Loader_load_all_invalid_abandons_witness :
    Loader.load (fun _ _ => Except.ok (none : Option Nat)) ⟨"John", {}⟩
      = ⟨false, [], [], []⟩ :=
  Loader_load_all_invalid_abandons (fun _ _ => Except.ok none) ⟨"John", {}⟩ (by decide)

/-! ### Format strategy dispatch (claim C9) -/

/-- The format string `"constructor"` is none of the three named formats,
yet the dispatcher does not fall back to `InlineFormat` there: the JS
lookup `formatTypes["constructor"]` hits the inherited, truthy
`Object.prototype.constructor`, so `|| InlineFormat` is not taken —
refuting the claim that every unrecognized format string selects the
inline strategy. -/
theorem Format_select_constructor_escapes :
    "constructor" ≠ "modal" ∧ "constructor" ≠ "inline" ∧ "constructor" ≠ "tooltip" ∧
    Format.select "constructor" ≠ FormatSelection.strategy FormatStrategy.InlineFormat ∧
    Format.select "constructor"
      = FormatSelection.inheritedObjectMember "constructor" := by
  decide

/-- C9 (amended): `"modal"`, `"inline"` and `"tooltip"` select
`BlockFormat`, `InlineFormat` and `PlainFormat` respectively; every other
format string falls back to `InlineFormat` unless it names an inherited
`Object.prototype` member (`"constructor"`, `"toString"`, `"__proto__"`,
...), in which case the truthy inherited value escapes the fallback and no
format strategy is selected. -/
theorem Format_select_dispatch :
    (∀ format : String, format ≠ "modal" → format ≠ "inline" → format ≠ "tooltip" →
      format ∉ objectPrototypeMembers →
      Format.select format = FormatSelection.strategy FormatStrategy.InlineFormat) ∧
    Format.select "modal" = FormatSelection.strategy FormatStrategy.BlockFormat ∧
    Format.select "inline" = FormatSelection.strategy FormatStrategy.InlineFormat ∧
    Format.select "tooltip" = FormatSelection.strategy FormatStrategy.PlainFormat ∧
    (∀ format ∈ objectPrototypeMembers,
      Format.select format = FormatSelection.inheritedObjectMember format) := by
  refine ⟨fun format h1 h2 h3 h4 => ?_, rfl, rfl, rfl, ?_⟩
  · simp [Format.select, formatTypes, h1, h2, h3, h4]
  · intro format hmem
    fin_cases hmem <;> rfl

/-- Witness for C9: an unrecognized format string that names no
`Object.prototype` member selects the inline strategy. -/
theorem Format_select_dispatch_witness :
    Format.select "custom" = FormatSelection.strategy FormatStrategy.InlineFormat :=
  Format_select_dispatch.1 "custom" (by decide) (by decide) (by decide) (by decide)

/-! ### Cache hit short-circuit (claim C10) -/

/-- C10: when the cache read yields a value, `Api.get` returns it as is:
no HTTP fetch happens and the store is returned unchanged (no
`Memory.set`). -/
theorem Api_get_cache_hit {α : Type} (fetch : String → String → Response α)
    (store : Store α) (now : Int) (reference translation : String) (d : α)
    (h : (Memory.get store now reference translation).1 = some d) :
    Api.get fetch store now reference translation = (Except.ok d, store, 0) := by
  unfold Api.get
  rw [h]

/-- Witness for C10: a fresh cached entry is served with zero fetches and
an unchanged store. -/
theorem Api_get_cache_hit_witness :
    Api.get (fun _ _ => ⟨true, 200, "OK", (7 : Nat)⟩)
      (fun k => if k = Memory.key "r" "t" then some ⟨(5 : Nat), 0⟩ else none)
      0 "r" "t"
      = (Except.ok 5, fun k => if k = Memory.key "r" "t" then some ⟨(5 : Nat), 0⟩ else none,
         0) :=
  Api_get_cache_hit (fun _ _ => ⟨true, 200, "OK", (7 : Nat)⟩)
    (fun k => if k = Memory.key "r" "t" then some ⟨(5 : Nat), 0⟩ else none)
    0 "r" "t" 5 (by simp [Memory.get, ONE_MONTH_IN_MILLISECONDS])

/-! ### Decimal rendering (towards claim C1) -/

/-- Code point of the digit character of `d < 10`. -/
theorem digitChar_toNat (d : Nat) (h : d < 10) : (Nat.digitChar d).toNat = 48 + d := by
  interval_cases d <;> rfl

/-- Unfolding of `natDigits` below 10. -/
theorem natDigits_lt (n : Nat) (h : n < 10) : natDigits n = [Nat.digitChar n] := by
  unfold natDigits
  simp [h]

/-- Unfolding of `natDigits` at 10 and above. -/
theorem natDigits_ge (n : Nat) (h : ¬n < 10) :
    natDigits n = natDigits (n / 10) ++ [Nat.digitChar (n % 10)] := by
  conv_lhs => rw [natDigits]
  simp [h]

/-- `Nat.toDigitsCore` with enough fuel agrees with the structural
`natDigits`. -/
theorem toDigitsCore_eq_natDigits (f : Nat) :
    ∀ (n : Nat) (ds : List Char), n < f →
      Nat.toDigitsCore 10 f n ds = natDigits n ++ ds := by
  induction f with
  | zero => intro n ds h; omega
  | succ f ih =>
    intro n ds h
    simp only [Nat.toDigitsCore]
    by_cases h0 : n / 10 = 0
    · have hn : n < 10 := by omega
      rw [if_pos h0, natDigits_lt n hn, Nat.mod_eq_of_lt hn]
      rfl
    · rw [if_neg h0, ih (n / 10) _ (by omega), natDigits_ge n (by omega)]
      simp

/-- The character data of `Nat.repr` is `natDigits`. -/
theorem repr_data (n : Nat) : (Nat.repr n).data = natDigits n := by
  show (Nat.toDigits 10 n).asString.data = natDigits n
  rw [Nat.toDigits, toDigitsCore_eq_natDigits (n + 1) n [] (Nat.lt_succ_self n)]
  simp [List.asString]

/-- Accumulator form of parsing back `natDigits`. -/
theorem digitsToNat_go (n : Nat) :
    ∀ a : Nat, List.foldl (fun x c => x * 10 + (c.toNat - 48)) a (natDigits n)
      = a * 10 ^ (natDigits n).length + n := by
  induction n using Nat.strong_induction_on with
  | _ n ih =>
    intro a
    by_cases h : n < 10
    · rw [natDigits_lt n h]
      simp [digitChar_toNat n h]
    · rw [natDigits_ge n h, List.foldl_append, ih (n / 10) (Nat.div_lt_self (by omega) (by omega))]
      simp only [List.foldl_cons, List.foldl_nil, List.length_append, List.length_cons,
        List.length_nil]
      rw [digitChar_toNat (n % 10) (Nat.mod_lt n (by omega))]
      have hpow : a * 10 ^ ((natDigits (n / 10)).length + (0 + 1))
          = a * 10 ^ (natDigits (n / 10)).length * 10 := by ring
      rw [hpow]
      generalize a * 10 ^ (natDigits (n / 10)).length = b
      omega

/-- Parsing the decimal digits of `n` recovers `n`. -/
theorem digitsToNat_natDigits (n : Nat) : digitsToNat (natDigits n) = n := by
  have h := digitsToNat_go n 0
  simpa [digitsToNat] using h

/-- Every character of `natDigits` is a decimal digit (code points 48-57). -/
theorem natDigits_code (n : Nat) : ∀ c ∈ natDigits n, 48 ≤ c.toNat ∧ c.toNat ≤ 57 := by
  induction n using Nat.strong_induction_on with
  | _ n ih =>
    intro c hc
    by_cases h : n < 10
    · rw [natDigits_lt n h] at hc
      rcases List.mem_singleton.mp hc with rfl
      rw [digitChar_toNat n h]
      omega
    · rw [natDigits_ge n h] at hc
      rcases List.mem_append.mp hc with hm | hm
      · exact ih (n / 10) (Nat.div_lt_self (by omega) (by omega)) c hm
      · rcases List.mem_singleton.mp hm with rfl
        rw [digitChar_toNat (n % 10) (Nat.mod_lt n (by omega))]
        have hmod : n % 10 < 10 := Nat.mod_lt n (by omega)
        omega

/-- A comma is not a decimal digit character. -/
theorem comma_not_mem_natDigits (n : Nat) : ',' ∉ natDigits n := by
  intro h
  exact absurd (natDigits_code n ',' h).1 (by decide)

/-- A hyphen is not a decimal digit character. -/
theorem hyphen_not_mem_natDigits (n : Nat) : '-' ∉ natDigits n := by
  intro h
  exact absurd (natDigits_code n '-' h).1 (by decide)

/-- `natDigits` is never empty. -/
theorem natDigits_ne_nil (n : Nat) : natDigits n ≠ [] := by
  by_cases h : n < 10
  · rw [natDigits_lt n h]; simp
  · rw [natDigits_ge n h]; simp

/-! ### Split/join round-trip (towards claim C1) -/

/-- Splitting a separator-free character list yields that single field. -/
theorem splitOnChar_not_mem (sep : Char) (cs : List Char) (h : sep ∉ cs) :
    splitOnChar sep cs = [cs] := by
  induction cs with
  | nil => rfl
  | cons c rest ih =>
    have hc : ¬c = sep := fun hcs => h (hcs ▸ List.mem_cons_self c rest)
    have hrest : sep ∉ rest := fun hm => h (List.mem_cons_of_mem c hm)
    simp [splitOnChar, hc, ih hrest]

/-- Splitting at the first separator occurrence peels off the leading
separator-free field. -/
theorem splitOnChar_append (sep : Char) (xs ys : List Char) (h : sep ∉ xs) :
    splitOnChar sep (xs ++ sep :: ys) = xs :: splitOnChar sep ys := by
  induction xs with
  | nil => simp [splitOnChar]
  | cons x xs ih =>
    have hx : ¬x = sep := fun hxs => h (hxs ▸ List.mem_cons_self x xs)
    have hxs : sep ∉ xs := fun hm => h (List.mem_cons_of_mem x hm)
    rw [List.cons_append]
    simp only [splitOnChar, if_neg hx, ih hxs]

/-- Splitting the comma-join of comma-free parts recovers the parts. -/
theorem splitOnChar_joinSep (parts : List String) (h : ∀ p ∈ parts, ',' ∉ p.data) :
    parts ≠ [] → splitOnChar ',' (joinSep "," parts).data = parts.map String.data := by
  induction parts with
  | nil => intro hne; exact absurd rfl hne
  | cons p rest ih =>
    intro _
    cases rest with
    | nil =>
      show splitOnChar ',' p.data = [p.data]
      exact splitOnChar_not_mem ',' p.data (h p (List.mem_cons_self p []))
    | cons q rest =>
      have hdata : (joinSep "," (p :: q :: rest)).data
          = p.data ++ ',' :: (joinSep "," (q :: rest)).data := by
        show (p ++ "," ++ joinSep "," (q :: rest)).data = _
        rw [String.data_append, String.data_append]
        simp
      rw [hdata, splitOnChar_append ',' _ _ (h p (List.mem_cons_self p _))]
      rw [ih (fun r hr => h r (List.mem_cons_of_mem p hr)) (by simp)]
      rfl

/-- The comma-join of parts with nonempty character data is a nonempty
string. -/
theorem joinSep_data_ne_nil (parts : List String) (hne : parts ≠ [])
    (h : ∀ p ∈ parts, p.data ≠ []) : (joinSep "," parts).data ≠ [] := by
  cases parts with
  | nil => exact absurd rfl hne
  | cons p rest =>
    cases rest with
    | nil => exact h p (List.mem_cons_self p [])
    | cons q rest =>
      show (p ++ "," ++ joinSep "," (q :: rest)).data ≠ []
      rw [String.data_append, String.data_append]
      intro hcontra
      rcases List.append_eq_nil.mp hcontra with ⟨hleft, _⟩
      rcases List.append_eq_nil.mp hleft with ⟨hp, _⟩
      exact h p (List.mem_cons_self p _) hp

/-- Character data of a rendered singleton range. -/
theorem renderRange_data_none (s : Nat) : (renderRange (s, none)).data = natDigits s :=
  repr_data s

/-- Character data of a rendered two-endpoint range. -/
theorem renderRange_data_some (s e : Nat) :
    (renderRange (s, some e)).data = natDigits s ++ '-' :: natDigits e := by
  show (Nat.repr s ++ "-" ++ Nat.repr e).data = _
  rw [String.data_append, String.data_append, repr_data, repr_data]
  simp

/-- A rendered range string contains no comma. -/
theorem comma_not_mem_renderRange (r : Nat × Option Nat) : ',' ∉ (renderRange r).data := by
  rcases r with ⟨s, w⟩
  cases w with
  | none =>
    rw [renderRange_data_none]
    exact comma_not_mem_natDigits s
  | some e =>
    rw [renderRange_data_some]
    intro hmem
    rcases List.mem_append.mp hmem with hm | hm
    · exact comma_not_mem_natDigits s hm
    · rcases List.mem_cons.mp hm with hm1 | hm2
      · exact absurd hm1 (by decide)
      · exact comma_not_mem_natDigits e hm2

/-- A rendered range string is nonempty. -/
theorem renderRange_data_ne_nil (r : Nat × Option Nat) : (renderRange r).data ≠ [] := by
  rcases r with ⟨s, w⟩
  cases w with
  | none => rw [renderRange_data_none]; exact natDigits_ne_nil s
  | some e =>
    rw [renderRange_data_some]
    intro hcontra
    exact natDigits_ne_nil s (List.append_eq_nil.mp hcontra).1

/-- Parsing one rendered range field back yields exactly the closed
interval it covers. -/
theorem parseToken_renderRange (s : Nat) (w : Option Nat) :
    parseToken (renderRange (s, w)).data = Finset.Icc s (w.getD s) := by
  cases w with
  | none =>
    rw [renderRange_data_none]
    unfold parseToken
    rw [splitOnChar_not_mem '-' _ (hyphen_not_mem_natDigits s)]
    simp [digitsToNat_natDigits]
  | some e =>
    rw [renderRange_data_some]
    unfold parseToken
    rw [splitOnChar_append '-' _ _ (hyphen_not_mem_natDigits s),
      splitOnChar_not_mem '-' _ (hyphen_not_mem_natDigits e)]
    simp [digitsToNat_natDigits]

/-- Folding union over the parsed fields of the rendered ranges gives the
covered set. -/
theorem foldr_parseToken (F : List (Nat × Option Nat)) :
    ((F.map (fun r => parseToken (renderRange r).data)).foldr (· ∪ ·) ∅) = coveredSet F := by
  induction F with
  | nil => rfl
  | cons r rest ih =>
    rcases r with ⟨s, w⟩
    simp only [List.map_cons, List.foldr_cons, ih, parseToken_renderRange]
    rfl

/-- Parsing the full joined range string of a nonempty `ranges` object
recovers exactly the covered verse set. -/
theorem parseRangeSet_ranges (F : List (Nat × Option Nat)) (hne : F ≠ []) :
    parseRangeSet (joinSep "," (F.map renderRange)) = coveredSet F := by
  have hmapne : F.map renderRange ≠ [] := by
    intro hcontra
    exact hne (List.map_eq_nil_iff.mp hcontra)
  have hstr : (joinSep "," (F.map renderRange)).data ≠ [] :=
    joinSep_data_ne_nil _ hmapne (by
      intro p hp
      rcases List.mem_map.mp hp with ⟨r, _, rfl⟩
      exact renderRange_data_ne_nil r)
  have hsne : joinSep "," (F.map renderRange) ≠ "" := by
    intro hcontra
    rw [hcontra] at hstr
    exact hstr rfl
  unfold parseRangeSet
  rw [if_neg hsne]
  rw [splitOnChar_joinSep _ (by
      intro p hp
      rcases List.mem_map.mp hp with ⟨r, _, rfl⟩
      exact comma_not_mem_renderRange r) hmapne]
  rw [List.map_map, List.map_map]
  exact foldr_parseToken F

/-! ### The range-building pass (towards claim C1) -/

/-- `coveredSet` unfolding on a cons cell. -/
theorem coveredSet_cons (p : Nat × Option Nat) (m : List (Nat × Option Nat)) :
    coveredSet (p :: m) = Finset.Icc p.1 (p.2.getD p.1) ∪ coveredSet m := rfl

/-- Any element of an updated `ranges` object is an old entry or the
written one. -/
theorem mem_insertRanges (m : List (Nat × Option Nat)) (k : Nat) (v : Option Nat)
    (p : Nat × Option Nat) (hp : p ∈ insertRanges m k v) : p ∈ m ∨ p = (k, v) := by
  induction m with
  | nil =>
    simp only [insertRanges, List.mem_singleton] at hp
    exact Or.inr hp
  | cons q rest ih =>
    rcases q with ⟨k', v'⟩
    simp only [insertRanges] at hp
    by_cases h1 : k < k'
    · rw [if_pos h1] at hp
      rcases List.mem_cons.mp hp with h | h
      · exact Or.inr h
      · exact Or.inl h
    · rw [if_neg h1] at hp
      by_cases h2 : k = k'
      · rw [if_pos h2] at hp
        rcases List.mem_cons.mp hp with h | h
        · exact Or.inr h
        · exact Or.inl (List.mem_cons_of_mem _ h)
      · rw [if_neg h2] at hp
        rcases List.mem_cons.mp hp with h | h
        · exact Or.inl (h ▸ List.mem_cons_self _ _)
        · rcases ih h with h | h
          · exact Or.inl (List.mem_cons_of_mem _ h)
          · exact Or.inr h

/-- Updating a `ranges` object never empties it. -/
theorem insertRanges_ne_nil (m : List (Nat × Option Nat)) (k : Nat) (v : Option Nat) :
    insertRanges m k v ≠ [] := by
  cases m with
  | nil => simp [insertRanges]
  | cons q rest =>
    rcases q with ⟨k', v'⟩
    simp only [insertRanges]
    split_ifs <;> simp

/-- Writing `ranges[k] = v` adds exactly the interval `[k, v ?? k]` to the
covered set, provided any overwritten entry at key `k` was a singleton. -/
theorem coveredSet_insertRanges (m : List (Nat × Option Nat)) (k : Nat) (v : Option Nat)
    (h1 : ∀ w, (k, w) ∈ m → w = none) (h2 : ∀ e, v = some e → k ≤ e) :
    coveredSet (insertRanges m k v) = coveredSet m ∪ Finset.Icc k (v.getD k) := by
  have hkv : k ≤ v.getD k := by
    cases v with
    | none => exact le_rfl
    | some e => exact h2 e rfl
  induction m with
  | nil =>
    show coveredSet [(k, v)] = coveredSet [] ∪ _
    rw [coveredSet_cons]
    ext x
    simp [coveredSet]
  | cons q rest ih =>
    rcases q with ⟨k', v'⟩
    simp only [insertRanges]
    by_cases hlt : k < k'
    · rw [if_pos hlt]
      ext x
      simp only [coveredSet_cons, Finset.mem_union]
      tauto
    · rw [if_neg hlt]
      by_cases heq : k = k'
      · subst heq
        have hv' : v' = none := h1 v' (List.mem_cons_self _ _)
        subst hv'
        rw [if_pos rfl]
        ext x
        simp only [coveredSet_cons, Finset.mem_union, Finset.mem_Icc, Option.getD_none,
          Option.getD_some]
        by_cases hx : x ∈ coveredSet rest <;> simp [hx] <;> omega
      · rw [if_neg heq]
        ext x
        simp only [coveredSet_cons, Finset.mem_union,
          ih (fun w hw => h1 w (List.mem_cons_of_mem _ hw))]
        tauto

/-- Invariant of the `forEach` pass of `Reference.verseReference`: running
the remaining (sorted) verses from a well-formed open-run state and
flushing yields a nonempty `ranges` object covering exactly the verses
seen so far plus the rest. -/
theorem rangeStep_fold (rest : List Nat) :
    ∀ (ranges : List (Nat × Option Nat)) (rs pv : Nat) (rEnd : Option Nat) (S : Finset Nat),
    List.Chain (· ≤ ·) pv rest →
    rs ≤ pv →
    (rEnd = none → rs = pv) →
    (∀ re, rEnd = some re → re = pv ∧ rs < re) →
    (∀ s w, (s, w) ∈ ranges → s ≤ rs ∧ (s = rs → w = none)) →
    coveredSet ranges ∪ Finset.Icc rs pv = S →
    coveredSet (flushRanges (rest.foldl rangeStep ⟨ranges, some rs, rEnd, some pv⟩))
        = S ∪ rest.toFinset ∧
      flushRanges (rest.foldl rangeStep ⟨ranges, some rs, rEnd, some pv⟩) ≠ [] := by
  induction rest with
  | nil =>
    intro ranges rs pv rEnd S _ hrspv hnone hsome hentries hcov
    simp only [List.foldl_nil, flushRanges]
    constructor
    · rw [coveredSet_insertRanges ranges rs rEnd (fun w hw => (hentries rs w hw).2 rfl)
        (fun e he => le_of_lt (hsome e he).2)]
      have hicc : Finset.Icc rs (rEnd.getD rs) = Finset.Icc rs pv := by
        cases rEnd with
        | none => rw [hnone rfl]; rfl
        | some re => rw [show (some re).getD rs = re from rfl, (hsome re rfl).1]
      rw [hicc, hcov]
      simp
    · exact insertRanges_ne_nil ranges rs rEnd
  | cons v rest ih =>
    intro ranges rs pv rEnd S hchain hrspv hnone hsome hentries hcov
    obtain ⟨hpvv, hchain2⟩ := List.chain_cons.mp hchain
    simp only [List.foldl_cons]
    have htofin : S ∪ (v :: rest).toFinset = (S ∪ {v}) ∪ rest.toFinset := by
      rw [List.toFinset_cons]
      ext x
      simp only [Finset.mem_union, Finset.mem_insert, Finset.mem_singleton]
      tauto
    by_cases hv : v = pv + 1
    · have hstep : rangeStep ⟨ranges, some rs, rEnd, some pv⟩ v
          = ⟨ranges, some rs, some v, some v⟩ := by
        simp [rangeStep, hv]
      rw [hstep, htofin]
      refine ih ranges rs v (some v) (S ∪ {v}) hchain2 (by omega)
        (fun hn => Option.noConfusion hn)
        (fun re hre => by
          rcases Option.some.inj hre with rfl
          exact ⟨rfl, by omega⟩)
        hentries ?_
      rw [← hcov]
      ext x
      simp only [Finset.mem_union, Finset.mem_Icc, Finset.mem_singleton]
      by_cases hx : x ∈ coveredSet ranges <;> simp [hx] <;> omega
    · have hstep : rangeStep ⟨ranges, some rs, rEnd, some pv⟩ v
          = ⟨insertRanges ranges rs rEnd, some v, none, some v⟩ := by
        simp [rangeStep, hv]
      rw [hstep, htofin]
      have hflush : coveredSet (insertRanges ranges rs rEnd) = S := by
        rw [coveredSet_insertRanges ranges rs rEnd (fun w hw => (hentries rs w hw).2 rfl)
          (fun e he => le_of_lt (hsome e he).2)]
        have hicc : Finset.Icc rs (rEnd.getD rs) = Finset.Icc rs pv := by
          cases rEnd with
          | none => rw [hnone rfl]; rfl
          | some re => rw [show (some re).getD rs = re from rfl, (hsome re rfl).1]
        rw [hicc, hcov]
      refine ih (insertRanges ranges rs rEnd) v v none (S ∪ {v}) hchain2 le_rfl
        (fun _ => rfl) (fun re hre => Option.noConfusion hre) ?_ ?_
      · intro s w hw
        rcases mem_insertRanges ranges rs rEnd (s, w) hw with hm | hm
        · rcases hentries s w hm with ⟨hs1, hs2⟩
          exact ⟨by omega, fun hsv => hs2 (by omega)⟩
        · have hs : s = rs := congrArg Prod.fst hm
          have hwe : w = rEnd := congrArg Prod.snd hm
          refine ⟨by omega, fun hsv => ?_⟩
          rw [hwe]
          cases hre : rEnd with
          | none => rfl
          | some re =>
            rcases hsome re hre with ⟨hre1, hre2⟩
            omega
      · rw [hflush, Finset.Icc_self]

/-- C1: for every list of verse numbers, parsing the comma/hyphen range
string produced by `Reference.verseReference` back into a set of integers
yields exactly the sorted, deduplicated set of the input numbers; in
particular `[16, 17, 19]` compresses to `"16-17,19"`. -/
theorem verseReference_roundTrip :
    (∀ verses : List Nat, parseRangeSet (verseReference verses) = verses.toFinset) ∧
    verseReference [16, 17, 19] = "16-17,19" := by
  constructor
  · intro verses
    have hperm : (List.insertionSort (· ≤ ·) verses).Perm verses :=
      List.perm_insertionSort _ verses
    have hsorted : List.Sorted (· ≤ ·) (List.insertionSort (· ≤ ·) verses) :=
      List.sorted_insertionSort _ verses
    have hfin := List.toFinset_eq_of_perm _ _ hperm
    show parseRangeSet (joinSep ","
        ((flushRanges ((List.insertionSort (· ≤ ·) verses).foldl rangeStep
          ⟨[], none, none, none⟩)).map renderRange)) = verses.toFinset
    cases hs : List.insertionSort (· ≤ ·) verses with
    | nil =>
      rw [hs] at hfin
      rw [← hfin]
      rfl
    | cons v rest =>
      rw [hs] at hsorted hfin
      have hchain : List.Chain (· ≤ ·) v rest := List.chain_iff_pairwise.mpr hsorted
      rw [List.foldl_cons,
        show rangeStep ⟨[], none, none, none⟩ v = ⟨[], some v, none, some v⟩ from rfl]
      obtain ⟨hcov, hne⟩ := rangeStep_fold rest [] v v none {v} hchain le_rfl
        (fun _ => rfl) (fun re hre => Option.noConfusion hre)
        (fun s w hw => absurd hw (List.not_mem_nil _))
        (by rw [Finset.Icc_self]; simp [coveredSet])
      rw [parseRangeSet_ranges _ hne, hcov, ← hfin, List.toFinset_cons,
        Finset.insert_eq]
  · rfl

end GetBible
